import Mathlib

/-!
Verification of the two example strategy scripts of the CoinGecko data-source
repository: `CoinGeckoAlgorithm.py` and
`CoinGeckoUniverseSelectionModelAlgorithm.py`.

The scripts are shallowly embedded.  Decimal quantities (market caps, prices)
are modelled as integers: the scripts only ever compare or sort them, so the
embedding only needs a decidable linear order on the values.  Framework calls
made during `Initialize` are recorded as an explicit list of configuration
calls, and the framework types the scripts use (`RollingWindow`, the slice
data dictionary, `SecuritySymbol`, `OrderStatus`) are modelled from the behaviour the
spec ascribes to them.
-/

/-- A CoinGecko data point: coin ticker, its market capitalization and price.
Only `MarketCap` is read by `CoinGeckoAlgorithm.OnData`; `UniverseSelection`
reads all three fields. -/
structure CoinGecko where
  Coin : String
  MarketCap : Int
  Price : Int
deriving DecidableEq, Repr, Inhabited

/-- Modelled from the spec: a rolling window is "a fixed-capacity buffer
retaining the N most recent observations of a data series" (the class itself
lives in the host framework, not in this repository).  `items` holds the
retained observations, most recent first, so index 0 is the newest. -/
structure RollingWindow (α : Type) where
  capacity : Nat
  items : List α
deriving DecidableEq, Repr

/-- `RollingWindow[T](n)`: a fresh window of capacity `n`. -/
def RollingWindow.create (α : Type) (n : Nat) : RollingWindow α :=
  ⟨n, []⟩

/-- `window.Add(x)`: prepend the new observation and drop anything beyond the
fixed capacity. -/
def RollingWindow.Add {α : Type} (w : RollingWindow α) (x : α) : RollingWindow α :=
  { w with items := (x :: w.items).take w.capacity }

/-- `window.IsReady`: the window holds as many observations as its capacity. -/
def RollingWindow.IsReady {α : Type} (w : RollingWindow α) : Bool :=
  w.items.length == w.capacity

/-- `window[i]`: indexing from the newest observation. -/
def RollingWindow.item {α : Type} [Inhabited α] (w : RollingWindow α) (i : Nat) : α :=
  (w.items.get? i).getD default

/-- The portfolio-affecting framework call made by `OnData`:
`self.SetHoldings(symbol, target)`. -/
inductive AlgoAction where
  | setHoldings (symbol : String) (target : Int)
deriving DecidableEq, Repr

/-- The mutable state of `CoinGeckoAlgorithm` that `OnData` touches: the
rolling window and the current target allocation of the crypto symbol
(0 before any `SetHoldings` call). -/
structure AlgoState where
  window : RollingWindow CoinGecko
  holdings : Int
deriving DecidableEq, Repr

/-- `slice.Get(CoinGecko)` is modelled as an association list from symbol to
data point; `symbol in data` is membership among the keys. -/
def dictContains (data : List (String × CoinGecko)) (sym : String) : Bool :=
  data.any (fun p => p.1 == sym)

/-- `data[symbol]`: lookup in the slice's CoinGecko data dictionary. -/
def dictGet (data : List (String × CoinGecko)) (sym : String) : Option CoinGecko :=
  (data.find? (fun p => p.1 == sym)).map Prod.snd

/-- `CoinGeckoAlgorithm.OnData`.  The returned state is the updated window and
holding; the returned list records the `SetHoldings` calls the handler made. -/
def OnData (cryptoSymbol customDataSymbol : String) (st : AlgoState)
    (data : List (String × CoinGecko)) : AlgoState × List AlgoAction :=
  if !data.isEmpty && dictContains data customDataSymbol then
    match dictGet data customDataSymbol with
    | some d =>
      let w := st.window.Add d
      if !w.IsReady then
        ({ st with window := w }, [])
      else if (w.item 0).MarketCap > (w.item 1).MarketCap then
        ({ window := w, holdings := 1 }, [AlgoAction.setHoldings cryptoSymbol 1])
      else
        ({ window := w, holdings := -1 }, [AlgoAction.setHoldings cryptoSymbol (-1)])
    | none => (st, [])
  else
    (st, [])

/-- The order-event statuses of the host framework's `OrderStatus` enum. -/
inductive OrderStatus where
  | New
  | Submitted
  | PartiallyFilled
  | Filled
  | Canceled
  | Invalid
  | CancelPending
  | UpdateSubmitted
deriving DecidableEq, Repr

/-- The fields of an order event that `OnOrderEvent` reads. -/
structure OrderEvent where
  Status : OrderStatus
  SecuritySymbol : String
deriving DecidableEq, Repr

/-- `CoinGeckoAlgorithm.OnOrderEvent`: the list of debug messages emitted. -/
def OnOrderEvent (e : OrderEvent) : List String :=
  if e.Status = OrderStatus.Filled then ["Purchased Stock: " ++ e.SecuritySymbol] else []

/-- Modelled from the spec: `CreateSymbol` (defined in the data-source library
outside the two scripts) produces the tradable symbol of a coin on a given
market with a given quote currency; it is modelled as the record of those
three inputs. -/
structure SecuritySymbol where
  coin : String
  market : String
  quoteCurrency : String
deriving DecidableEq, Repr

/-- `x.CreateSymbol(market, quote)` on a CoinGecko data point. -/
def CoinGecko.CreateSymbol (x : CoinGecko) (market quoteCurrency : String) : SecuritySymbol :=
  ⟨x.Coin, market, quoteCurrency⟩

/-- `Market.GDAX` (Coinbase). -/
def Market.GDAX : String := "GDAX"

/-- The descending-market-cap comparison used by `UniverseSelection`:
`a` precedes `b` when `a`'s market cap is at least `b`'s. -/
def geMC (a b : CoinGecko) : Prop :=
  b.MarketCap ≤ a.MarketCap

instance : DecidableRel geMC := fun a b =>
  inferInstanceAs (Decidable (b.MarketCap ≤ a.MarketCap))

instance : IsTotal CoinGecko geMC :=
  ⟨fun a b => Int.le_total b.MarketCap a.MarketCap⟩

instance : IsTrans CoinGecko geMC :=
  ⟨fun _ _ _ hab hbc => le_trans hbc hab⟩

/-- `sorted(data, key=lambda x: x.MarketCap, reverse=True)`.  Python's `sorted`
is a stable sort, and with `reverse=True` it is a stable descending sort; it is
embedded as the (stable) insertion sort on the `geMC` comparison. -/
def sortedByMarketCapDesc (data : List CoinGecko) : List CoinGecko :=
  List.insertionSort geMC data

/-- `CoinGeckoUniverseSelectionModelAlgorithm.UniverseSelection`: sort the
candidates by descending market cap, keep the first three, and build each
selected entry's symbol for the GDAX market quoted in USD. -/
def UniverseSelection (data : List CoinGecko) : List SecuritySymbol :=
  ((sortedByMarketCapDesc data).take 3).map (fun x => x.CreateSymbol Market.GDAX "USD")

/-- Comparison of paired candidate lists by the market cap of the first
component; used to relate two `UniverseSelection` runs whose inputs differ
only in their market-cap values. -/
def geMCFst (p q : CoinGecko × CoinGecko) : Prop :=
  geMC p.1 q.1

instance : DecidableRel geMCFst := fun p q =>
  inferInstanceAs (Decidable (geMC p.1 q.1))

/-- The universe resolution values the scripts mention. -/
inductive Resolution where
  | Tick
  | Second
  | Minute
  | Hour
  | Daily
deriving DecidableEq, Repr

/-- One framework configuration call made inside an `Initialize` method. -/
inductive InitCall where
  | setStartDate (year month day : Nat)
  | setEndDate (year month day : Nat)
  | setCash (amount : Nat)
  | addCrypto (ticker : String)
  | addData (dataType ticker : String)
  | setUniverseResolution (r : Resolution)
  | setUniverseSelectionModel
deriving DecidableEq, Repr

/-- The configuration calls of `CoinGeckoAlgorithm.Initialize`, in program
order: start date 2018-04-04, end date 2018-04-06, the BTCUSD crypto
subscription and the CoinGecko custom-data subscription for "BTC".  (The
method also creates the rolling window, see `CoinGeckoAlgorithm.window`;
it contains no `SetCash` call.) -/
def CoinGeckoAlgorithm.InitializeCalls : List InitCall :=
  [InitCall.setStartDate 2018 4 4,
   InitCall.setEndDate 2018 4 6,
   InitCall.addCrypto "BTCUSD",
   InitCall.addData "CoinGecko" "BTC"]

/-- `self.window = RollingWindow[CoinGecko](2)` in
`CoinGeckoAlgorithm.Initialize`. -/
def CoinGeckoAlgorithm.window : RollingWindow CoinGecko :=
  RollingWindow.create CoinGecko 2

/-- The configuration calls of
`CoinGeckoUniverseSelectionModelAlgorithm.Initialize`, in program order:
daily universe resolution, start date 2018-04-04, end date 2018-04-06,
initial cash 100000, and the custom universe data source. -/
def CoinGeckoUniverseSelectionModelAlgorithm.InitializeCalls : List InitCall :=
  [InitCall.setUniverseResolution Resolution.Daily,
   InitCall.setStartDate 2018 4 4,
   InitCall.setEndDate 2018 4 6,
   InitCall.setCash 100000,
   InitCall.setUniverseSelectionModel]

/-- Whether an `Initialize` method declares a start date. -/
def declaresStartDate (l : List InitCall) : Bool :=
  l.any fun c => match c with
    | InitCall.setStartDate _ _ _ => true
    | _ => false

/-- Whether an `Initialize` method declares an end date. -/
def declaresEndDate (l : List InitCall) : Bool :=
  l.any fun c => match c with
    | InitCall.setEndDate _ _ _ => true
    | _ => false

/-- Whether an `Initialize` method declares an initial cash amount. -/
def declaresCash (l : List InitCall) : Bool :=
  l.any fun c => match c with
    | InitCall.setCash _ => true
    | _ => false

/-- The data-feed subscriptions (`AddCrypto` / `AddData` calls) of an
`Initialize` method. -/
def dataSubscriptions (l : List InitCall) : List InitCall :=
  l.filter fun c => match c with
    | InitCall.addCrypto _ => true
    | InitCall.addData _ _ => true
    | _ => false

/-- The custom universe data sources (`SetUniverseSelection` calls) of an
`Initialize` method. -/
def universeSources (l : List InitCall) : List InitCall :=
  l.filter fun c => match c with
    | InitCall.setUniverseSelectionModel => true
    | _ => false

/-- Claim C6: `CoinGeckoAlgorithm.OnOrderEvent` emits a debug log message if
and only if the order event's status is `Filled`; any other status produces no
log output. -/
theorem onOrderEvent_logs_iff_filled (e : OrderEvent) :
    ((OnOrderEvent e).length = 1 ↔ e.Status = OrderStatus.Filled) ∧
    ((OnOrderEvent e).length = 0 ↔ e.Status ≠ OrderStatus.Filled) := by
  cases e with
  | mk s sym => cases s <;> simp [OnOrderEvent]

/-- Claim C3, counterexample: the claim says each of the two scripts declares
an initial cash amount in `Initialize`, but `CoinGeckoAlgorithm.Initialize`
contains no `SetCash` call. -/
theorem coinGeckoAlgorithm_declares_no_cash :
    declaresCash CoinGeckoAlgorithm.InitializeCalls = false := by
  decide

/-- Claim C3, amended: both scripts declare a start date and an end date in
`Initialize`; `CoinGeckoUniverseSelectionModelAlgorithm` additionally declares
an initial cash amount, while `CoinGeckoAlgorithm` does not. -/
theorem initialize_declarations :
    declaresStartDate CoinGeckoAlgorithm.InitializeCalls = true ∧
    declaresEndDate CoinGeckoAlgorithm.InitializeCalls = true ∧
    declaresCash CoinGeckoAlgorithm.InitializeCalls = false ∧
    declaresStartDate CoinGeckoUniverseSelectionModelAlgorithm.InitializeCalls = true ∧
    declaresEndDate CoinGeckoUniverseSelectionModelAlgorithm.InitializeCalls = true ∧
    declaresCash CoinGeckoUniverseSelectionModelAlgorithm.InitializeCalls = true := by
  decide

/-- Claim C8: `CoinGeckoAlgorithm.Initialize` subscribes to exactly two data
feeds, the BTCUSD crypto feed and the CoinGecko custom data feed for "BTC",
and `CoinGeckoUniverseSelectionModelAlgorithm.Initialize` registers exactly
one custom universe data source (and no direct data-feed subscription). -/
theorem initialize_subscriptions :
    dataSubscriptions CoinGeckoAlgorithm.InitializeCalls =
      [InitCall.addCrypto "BTCUSD", InitCall.addData "CoinGecko" "BTC"] ∧
    (dataSubscriptions CoinGeckoAlgorithm.InitializeCalls).length = 2 ∧
    universeSources CoinGeckoUniverseSelectionModelAlgorithm.InitializeCalls =
      [InitCall.setUniverseSelectionModel] ∧
    universeSources CoinGeckoAlgorithm.InitializeCalls = [] := by
  decide

theorem take_append_take_eq {α : Type} (n : Nat) (l m : List α) :
    (l ++ m.take n).take n = (l ++ m).take n := by
  rw [List.take_append_eq_append_take, List.take_append_eq_append_take,
    List.take_take, Nat.min_eq_left (Nat.sub_le n l.length)]

theorem foldl_add_spec {α : Type} (xs : List α) :
    ∀ w : RollingWindow α, w.items.length ≤ w.capacity →
      (xs.foldl RollingWindow.Add w).capacity = w.capacity ∧
      (xs.foldl RollingWindow.Add w).items = (xs.reverse ++ w.items).take w.capacity := by
  induction xs with
  | nil =>
    intro w hw
    exact ⟨rfl, by simp [List.take_of_length_le hw]⟩
  | cons x xs ih =>
    intro w hw
    have hlen : (w.Add x).items.length ≤ (w.Add x).capacity := by
      simp [RollingWindow.Add]
    obtain ⟨hcap, hitems⟩ := ih (w.Add x) hlen
    refine ⟨hcap, ?_⟩
    rw [List.foldl_cons, hitems]
    simp only [RollingWindow.Add]
    rw [take_append_take_eq, List.reverse_cons, List.append_assoc, List.singleton_append]

/-- Claim C4: starting from the window `CoinGeckoAlgorithm.Initialize` creates,
after any sequence of `Add` operations the window still has capacity 2, holds
exactly the most recent `min 2 (number added)` observations with index 0 the
newest (its contents are the reversal of the added sequence, truncated to two),
and the observation added last is read back at index 0. -/
theorem rollingWindow_retains_two_most_recent (xs : List CoinGecko) :
    (xs.foldl RollingWindow.Add CoinGeckoAlgorithm.window).capacity = 2 ∧
    (xs.foldl RollingWindow.Add CoinGeckoAlgorithm.window).items = xs.reverse.take 2 ∧
    (xs.foldl RollingWindow.Add CoinGeckoAlgorithm.window).items.length = min 2 xs.length ∧
    ∀ a : CoinGecko, ((xs.foldl RollingWindow.Add CoinGeckoAlgorithm.window).Add a).item 0 = a := by
  obtain ⟨hcap, hitems⟩ :=
    foldl_add_spec xs CoinGeckoAlgorithm.window (by simp [CoinGeckoAlgorithm.window, RollingWindow.create])
  have hcap2 : (xs.foldl RollingWindow.Add CoinGeckoAlgorithm.window).capacity = 2 := hcap
  have hitems2 : (xs.foldl RollingWindow.Add CoinGeckoAlgorithm.window).items = xs.reverse.take 2 := by
    rw [hitems]; simp [CoinGeckoAlgorithm.window, RollingWindow.create]
  refine ⟨hcap2, hitems2, ?_, ?_⟩
  · rw [hitems2]; simp
  · intro a
    simp [RollingWindow.Add, RollingWindow.item, hcap2, List.take_cons]

theorem dictGet_some_not_isEmpty {data : List (String × CoinGecko)} {s : String}
    {d : CoinGecko} (h : dictGet data s = some d) : data.isEmpty = false := by
  cases data with
  | nil => simp [dictGet] at h
  | cons p l => rfl

theorem dictGet_some_contains {data : List (String × CoinGecko)} {s : String}
    {d : CoinGecko} (h : dictGet data s = some d) : dictContains data s = true := by
  unfold dictGet at h
  cases hf : data.find? (fun p => p.1 == s) with
  | none => rw [hf] at h; simp at h
  | some q =>
    have hq := List.find?_some hf
    have hmem := List.mem_of_find?_eq_some hf
    exact List.any_eq_true.mpr ⟨q, hmem, hq⟩

/-- Claim C9: when the slice holds no CoinGecko data at all, or holds some but
none for the subscribed custom data symbol, `OnData` leaves the whole state
(window and holding) unchanged and makes no `SetHoldings` call. -/
theorem onData_no_data_frame (cs ds : String) (st : AlgoState)
    (data : List (String × CoinGecko))
    (h : data = [] ∨ dictContains data ds = false) :
    OnData cs ds st data = (st, []) := by
  rcases h with rfl | h
  · rfl
  · simp [OnData, h]

theorem onData_no_data_frame_witness :
    (([("ETH", (⟨"ETH", 7, 0⟩ : CoinGecko))] : List (String × CoinGecko)) = [] ∨
      dictContains [("ETH", ⟨"ETH", 7, 0⟩)] "BTC" = false) ∧
    OnData "BTCUSD" "BTC" ⟨⟨2, []⟩, 0⟩ [("ETH", ⟨"ETH", 7, 0⟩)] = (⟨⟨2, []⟩, 0⟩, []) :=
  ⟨Or.inr (by decide),
    onData_no_data_frame "BTCUSD" "BTC" ⟨⟨2, []⟩, 0⟩ [("ETH", ⟨"ETH", 7, 0⟩)]
      (Or.inr (by decide))⟩

/-- Claim C5: while fewer than two observations have been added to the window
(the window of the returned state is still not ready), `OnData` makes no
`SetHoldings` call and the holding is unchanged. -/
theorem onData_not_ready_no_trade (cs ds : String) (st : AlgoState)
    (data : List (String × CoinGecko))
    (h : (OnData cs ds st data).1.window.IsReady = false) :
    (OnData cs ds st data).2 = [] ∧ (OnData cs ds st data).1.holdings = st.holdings := by
  by_cases h1 : (!data.isEmpty && dictContains data ds) = true
  · cases hd : dictGet data ds with
    | none =>
      have heq : OnData cs ds st data = (st, []) := by simp [OnData, h1, hd]
      rw [heq]
      exact ⟨rfl, rfl⟩
    | some d =>
      cases hr : (st.window.Add d).IsReady with
      | false =>
        have heq : OnData cs ds st data = (⟨st.window.Add d, st.holdings⟩, []) := by
          simp [OnData, h1, hd, hr]
        rw [heq]
        exact ⟨rfl, rfl⟩
      | true =>
        by_cases hc :
            ((st.window.Add d).item 0).MarketCap > ((st.window.Add d).item 1).MarketCap
        · have heq : OnData cs ds st data =
              (⟨st.window.Add d, 1⟩, [AlgoAction.setHoldings cs 1]) := by
            simp [OnData, h1, hd, hr, hc]
          rw [heq] at h
          simp [hr] at h
        · have heq : OnData cs ds st data =
              (⟨st.window.Add d, -1⟩, [AlgoAction.setHoldings cs (-1)]) := by
            simp [OnData, h1, hd, hr, hc]
          rw [heq] at h
          simp [hr] at h
  · have hg : (!data.isEmpty && dictContains data ds) = false := by simpa using h1
    have heq : OnData cs ds st data = (st, []) := by simp [OnData, hg]
    rw [heq]
    exact ⟨rfl, rfl⟩

theorem onData_not_ready_no_trade_witness :
    (OnData "BTCUSD" "BTC" ⟨⟨2, []⟩, 0⟩ [("BTC", ⟨"BTC", 7, 0⟩)]).1.window.IsReady = false ∧
    ((OnData "BTCUSD" "BTC" ⟨⟨2, []⟩, 0⟩ [("BTC", ⟨"BTC", 7, 0⟩)]).2 = [] ∧
      (OnData "BTCUSD" "BTC" ⟨⟨2, []⟩, 0⟩ [("BTC", ⟨"BTC", 7, 0⟩)]).1.holdings = 0) :=
  ⟨by decide,
    onData_not_ready_no_trade "BTCUSD" "BTC" ⟨⟨2, []⟩, 0⟩ [("BTC", ⟨"BTC", 7, 0⟩)] (by decide)⟩

/-- Claim C1: when the slice carries a CoinGecko point `d` for the custom data
symbol and the window already holds two observations (newest `w0`), `OnData`
pushes `d`, and sets the holding of the crypto symbol to 1 when `d`'s market
cap strictly exceeds the previous observation's and to -1 otherwise (equality
included). -/
theorem onData_trend_comparison (cs ds : String) (st : AlgoState)
    (data : List (String × CoinGecko)) (d w0 w1 : CoinGecko)
    (hget : dictGet data ds = some d)
    (hcap : st.window.capacity = 2)
    (hitems : st.window.items = [w0, w1]) :
    (d.MarketCap > w0.MarketCap →
      OnData cs ds st data =
        (⟨st.window.Add d, 1⟩, [AlgoAction.setHoldings cs 1])) ∧
    (¬ d.MarketCap > w0.MarketCap →
      OnData cs ds st data =
        (⟨st.window.Add d, -1⟩, [AlgoAction.setHoldings cs (-1)])) := by
  have hne := dictGet_some_not_isEmpty hget
  have hcont := dictGet_some_contains hget
  have hadd : st.window.Add d = ⟨2, [d, w0]⟩ := by
    unfold RollingWindow.Add
    rw [hcap, hitems]
    rfl
  constructor <;> intro hcmp <;>
    simp [OnData, hne, hcont, hget, hadd, RollingWindow.IsReady, RollingWindow.item, hcmp]

theorem onData_trend_comparison_witness :
    dictGet [("BTC", ⟨"BTC", 7, 0⟩)] "BTC" = some ⟨"BTC", 7, 0⟩ ∧
    (⟨⟨2, [⟨"BTC", 5, 0⟩, ⟨"BTC", 4, 0⟩]⟩, 0⟩ : AlgoState).window.capacity = 2 ∧
    (⟨⟨2, [⟨"BTC", 5, 0⟩, ⟨"BTC", 4, 0⟩]⟩, 0⟩ : AlgoState).window.items =
      [⟨"BTC", 5, 0⟩, ⟨"BTC", 4, 0⟩] ∧
    (⟨"BTC", 7, 0⟩ : CoinGecko).MarketCap > (⟨"BTC", 5, 0⟩ : CoinGecko).MarketCap ∧
    OnData "BTCUSD" "BTC" ⟨⟨2, [⟨"BTC", 5, 0⟩, ⟨"BTC", 4, 0⟩]⟩, 0⟩ [("BTC", ⟨"BTC", 7, 0⟩)] =
      (⟨(⟨⟨2, [⟨"BTC", 5, 0⟩, ⟨"BTC", 4, 0⟩]⟩, 0⟩ : AlgoState).window.Add ⟨"BTC", 7, 0⟩, 1⟩,
        [AlgoAction.setHoldings "BTCUSD" 1]) :=
  ⟨by decide, by decide, by decide, by decide,
    (onData_trend_comparison "BTCUSD" "BTC" ⟨⟨2, [⟨"BTC", 5, 0⟩, ⟨"BTC", 4, 0⟩]⟩, 0⟩
      [("BTC", ⟨"BTC", 7, 0⟩)] ⟨"BTC", 7, 0⟩ ⟨"BTC", 5, 0⟩ ⟨"BTC", 4, 0⟩
      (by decide) (by decide) (by decide)).1 (by decide)⟩

/-- Claim C2: `UniverseSelection` returns the symbols of the `min 3 (len data)`
entries with the largest market caps: some split `sel ++ rest` of a
permutation of the input has `sel` of that length, non-increasing in market
cap, dominating every dropped entry, and the result is exactly `sel` mapped
through `CreateSymbol` with market GDAX and quote currency "USD". -/
theorem universeSelection_selects_top_three (data : List CoinGecko) :
    ∃ sel rest : List CoinGecko,
      (sel ++ rest).Perm data ∧
      sel.length = min 3 data.length ∧
      List.Sorted geMC sel ∧
      (∀ a ∈ sel, ∀ b ∈ rest, geMC a b) ∧
      UniverseSelection data = sel.map (fun x => x.CreateSymbol Market.GDAX "USD") := by
  refine ⟨(sortedByMarketCapDesc data).take 3, (sortedByMarketCapDesc data).drop 3,
    ?_, ?_, ?_, ?_, rfl⟩
  · rw [List.take_append_drop]
    exact List.perm_insertionSort geMC data
  · rw [List.length_take]
    unfold sortedByMarketCapDesc
    rw [List.length_insertionSort]
  · exact List.Pairwise.sublist (List.take_sublist 3 _) (List.sorted_insertionSort geMC data)
  · have hs : List.Sorted geMC ((sortedByMarketCapDesc data).take 3 ++
        (sortedByMarketCapDesc data).drop 3) := by
      rw [List.take_append_drop]
      exact List.sorted_insertionSort geMC data
    exact (List.pairwise_append.mp hs).2.2

/-- Claim C7: the market caps act only as a ranking key.  For two input lists
that agree entrywise except in market cap, with the replacement market caps
inducing the same strict ordering of the entries, `UniverseSelection` returns
equal symbol lists. -/
theorem universeSelection_rank_invariance (l : List (CoinGecko × CoinGecko))
    (hfix : ∀ p ∈ l, p.1.Coin = p.2.Coin ∧ p.1.Price = p.2.Price)
    (hord : ∀ p ∈ l, ∀ q ∈ l,
      (p.1.MarketCap < q.1.MarketCap ↔ p.2.MarketCap < q.2.MarketCap)) :
    UniverseSelection (l.map Prod.fst) = UniverseSelection (l.map Prod.snd) := by
  have h1 : (List.insertionSort geMCFst l).map Prod.fst =
      List.insertionSort geMC (l.map Prod.fst) :=
    List.map_insertionSort geMCFst geMC Prod.fst l (fun _ _ _ _ => Iff.rfl)
  have h2 : (List.insertionSort geMCFst l).map Prod.snd =
      List.insertionSort geMC (l.map Prod.snd) := by
    apply List.map_insertionSort
    intro a ha b hb
    show b.1.MarketCap ≤ a.1.MarketCap ↔ b.2.MarketCap ≤ a.2.MarketCap
    rw [← not_lt, ← not_lt]
    exact not_congr (hord a ha b hb)
  unfold UniverseSelection sortedByMarketCapDesc
  rw [← h1, ← h2, ← List.map_take, ← List.map_take, List.map_map, List.map_map]
  apply List.map_congr_left
  intro p hp
  have hpl : p ∈ l :=
    (List.mem_insertionSort geMCFst).mp (List.mem_of_mem_take hp)
  obtain ⟨hcoin, _⟩ := hfix p hpl
  show p.1.CreateSymbol Market.GDAX "USD" = p.2.CreateSymbol Market.GDAX "USD"
  simp [CoinGecko.CreateSymbol, hcoin]

theorem universeSelection_rank_invariance_witness :
    (∀ p ∈ [((⟨"BTC", 10, 1⟩ : CoinGecko), (⟨"BTC", 100, 1⟩ : CoinGecko)),
            (⟨"ETH", 5, 2⟩, ⟨"ETH", 7, 2⟩)],
      p.1.Coin = p.2.Coin ∧ p.1.Price = p.2.Price) ∧
    (∀ p ∈ [((⟨"BTC", 10, 1⟩ : CoinGecko), (⟨"BTC", 100, 1⟩ : CoinGecko)),
            (⟨"ETH", 5, 2⟩, ⟨"ETH", 7, 2⟩)],
      ∀ q ∈ [((⟨"BTC", 10, 1⟩ : CoinGecko), (⟨"BTC", 100, 1⟩ : CoinGecko)),
            (⟨"ETH", 5, 2⟩, ⟨"ETH", 7, 2⟩)],
      (p.1.MarketCap < q.1.MarketCap ↔ p.2.MarketCap < q.2.MarketCap)) ∧
    UniverseSelection ([((⟨"BTC", 10, 1⟩ : CoinGecko), (⟨"BTC", 100, 1⟩ : CoinGecko)),
            (⟨"ETH", 5, 2⟩, ⟨"ETH", 7, 2⟩)].map Prod.fst) =
      UniverseSelection ([((⟨"BTC", 10, 1⟩ : CoinGecko), (⟨"BTC", 100, 1⟩ : CoinGecko)),
            (⟨"ETH", 5, 2⟩, ⟨"ETH", 7, 2⟩)].map Prod.snd) :=
  ⟨by decide, by decide,
    universeSelection_rank_invariance
      [((⟨"BTC", 10, 1⟩ : CoinGecko), (⟨"BTC", 100, 1⟩ : CoinGecko)),
        (⟨"ETH", 5, 2⟩, ⟨"ETH", 7, 2⟩)] (by decide) (by decide)⟩

theorem filter_orderedInsert_of_pos {α : Type} (r : α → α → Prop) [DecidableRel r]
    (p : α → Bool) (a : α) (hpa : p a = true) (h : ∀ b, ¬ r a b → p b = false) :
    ∀ l : List α, (List.orderedInsert r a l).filter p = a :: l.filter p := by
  intro l
  induction l with
  | nil => simp [hpa]
  | cons b l ih =>
    by_cases hr : r a b
    · rw [List.orderedInsert, if_pos hr]
      simp [hpa]
    · rw [List.orderedInsert, if_neg hr]
      simp [List.filter_cons, h b hr, ih]

theorem filter_orderedInsert_of_neg {α : Type} (r : α → α → Prop) [DecidableRel r]
    (p : α → Bool) (a : α) (hpa : p a = false) :
    ∀ l : List α, (List.orderedInsert r a l).filter p = l.filter p := by
  intro l
  induction l with
  | nil => simp [hpa]
  | cons b l ih =>
    by_cases hr : r a b
    · rw [List.orderedInsert, if_pos hr]
      simp [hpa]
    · rw [List.orderedInsert, if_neg hr]
      simp [List.filter_cons, ih]

theorem filter_insertionSort_eq {α : Type} (r : α → α → Prop) [DecidableRel r]
    (p : α → Bool) (H : ∀ a b, p a = true → ¬ r a b → p b = false) :
    ∀ l : List α, (List.insertionSort r l).filter p = l.filter p := by
  intro l
  induction l with
  | nil => rfl
  | cons a l ih =>
    rw [List.insertionSort]
    cases hpa : p a with
    | true =>
      rw [filter_orderedInsert_of_pos r p a hpa (fun b => H a b hpa), ih]
      simp [hpa]
    | false =>
      rw [filter_orderedInsert_of_neg r p a hpa, ih]
      simp [hpa]

/-- Claim C10: the descending sort inside `UniverseSelection` is stable, so
entries with equal market cap keep their input order (for every cap value,
filtering the sorted list for that value gives exactly the input's entries
with that value, in input order), and the selection is the first three of
that stably sorted list. -/
theorem universeSelection_stable_ties (data : List CoinGecko) (c : Int) :
    (sortedByMarketCapDesc data).filter (fun x => x.MarketCap == c) =
      data.filter (fun x => x.MarketCap == c) ∧
    UniverseSelection data =
      ((sortedByMarketCapDesc data).take 3).map
        (fun x => x.CreateSymbol Market.GDAX "USD") := by
  refine ⟨?_, rfl⟩
  apply filter_insertionSort_eq
  intro a b hpa hr
  have ha : a.MarketCap = c := by simpa using hpa
  have hr' : ¬ b.MarketCap ≤ a.MarketCap := hr
  have hb : a.MarketCap < b.MarketCap := not_le.mp hr'
  have hne : b.MarketCap ≠ c := by
    rw [← ha]
    exact ne_of_gt hb
  simpa using hne
